import Mathlib

/-!
Verification of the wuwa-downloader download engine.

Shallow embedding of the core download engine of the repository:
the integrity checker (`src/io/file.rs`), the retry/failover controller and
resumable transfer (`src/network/client.rs`), and the batch driver with its
size-estimation pass and shared progress counters (`src/io/util.rs`).

The network, the cancellation flag and the hash function are modelled as
oracles in an `Env`; the local file system, the shared atomic counters and
the observable traces (HEAD/GET requests issued, progress stores, log
records) live in a state `St` threaded through every operation, mirroring
the Rust control flow statement by statement.
-/

namespace WuwaDL

/-- A manifest resource entry: the optional `dest` relative path and the
optional `md5` expectation, as read by `download_resources`. -/
structure Resource where
  dest : Option String
  md5 : Option String
deriving DecidableEq

/-- Outcome of one HEAD metadata request: a network error (`Err(e)` in Rust),
or a response carrying `status().is_success()` and the parsed
`content-length` header (none when absent or unparsable). -/
inductive HeadOut where
  | err
  | resp (ok : Bool) (len : Option Nat)
deriving DecidableEq

/-- Outcome of one GET transfer request: network error, HTTP 416, another
non-success status, or a successful body delivered as a list of read chunks,
optionally followed by a mid-stream read error. -/
inductive GetOut where
  | netErr (msg : String)
  | rangeNotSat
  | httpErr (code : String)
  | okBody (chunks : List (List Nat)) (readErr : Option String)
deriving DecidableEq

/-- Structured log records emitted through `log_error`. -/
inductive LogEntry where
  | cdnFailed (i : Nat) (dest : String)
  | dirError (dest : String)
  | failedAfterRetries (dest : String) (lastError : String)
  | checksumFailed (dest expected actual : String)
  | allCdnsFailed (dest : String)
deriving DecidableEq

/-- Result of `calculate_md5`: the Rust function returns a `String` and has no
error channel; its `.unwrap()` calls abort the process, modelled by
`panicked`. -/
inductive Md5Result where
  | panicked
  | hash (h : String)
deriving DecidableEq

/-- Oracles for the environment: the cancellation flag value at each read
(indexed by a read counter), the outcome of each HEAD request (indexed by a
HEAD counter), the outcome of each GET request (indexed by a GET counter and
given the url and the resume offset sent in the `Range` header), the hash
function, and whether `create_dir_all` succeeds. -/
structure Env where
  stop : Nat → Bool
  head : Nat → String → HeadOut
  get : Nat → String → Nat → GetOut
  md5 : List Nat → String
  mkdirOk : Bool

/-- Program state: the local file system (contents by path), the shared
atomic counters `total_bytes` / `downloaded_bytes` / `success`, the oracle
call counters, and the observable traces: every HEAD url issued, every GET
`(url, resume offset)` issued, every value stored into `downloaded_bytes`,
every log record, every directory created. -/
structure St where
  fs : String → Option (List Nat)
  totalBytes : Nat
  downloadedBytes : Nat
  dlTrace : List Nat
  success : Nat
  nStop : Nat
  nHead : Nat
  nGet : Nat
  heads : List String
  gets : List (String × Nat)
  log : List LogEntry
  mkdirs : List String

/-- One read of the shared `should_stop` atomic flag. -/
def readStop (env : Env) (st : St) : Bool × St :=
  (env.stop st.nStop, { st with nStop := st.nStop + 1 })

/-- Issue one HEAD request. -/
def doHead (env : Env) (url : String) (st : St) : HeadOut × St :=
  (env.head st.nHead url, { st with nHead := st.nHead + 1, heads := st.heads ++ [url] })

/-- Issue one GET request with the given resume offset. -/
def doGet (env : Env) (url : String) (off : Nat) (st : St) : GetOut × St :=
  (env.get st.nGet url off, { st with nGet := st.nGet + 1, gets := st.gets ++ [(url, off)] })

/-- An absolute store `progress.downloaded_bytes.store(n, SeqCst)`, recorded
in the store trace. -/
def storeDownloaded (st : St) (n : Nat) : St :=
  { st with downloadedBytes := n, dlTrace := st.dlTrace ++ [n] }

/-- The increment `progress.total_bytes.fetch_add(n, SeqCst)`. -/
def addTotal (st : St) (n : Nat) : St :=
  { st with totalBytes := st.totalBytes + n }

/-- Append a log record (`log_error`). -/
def addLog (st : St) (e : LogEntry) : St :=
  { st with log := st.log ++ [e] }

/-- Opening via `OpenOptions::new().create(true).append(true).open(path)`:
creates the file empty when absent, keeps its contents when present. -/
def ensureFile (st : St) (path : String) : St :=
  { st with fs := fun p => if p = path then some ((st.fs path).getD []) else st.fs p }

/-- A `file.write_all(chunk)` on a file opened in append mode. -/
def appendFile (st : St) (path : String) (c : List Nat) : St :=
  { st with fs := fun p => if p = path then some ((st.fs path).getD [] ++ c) else st.fs p }

/-- The deletion `fs::remove_file(path)`. -/
def removeFile (st : St) (path : String) : St :=
  { st with fs := fun p => if p = path then none else st.fs p }

/-- The normalization `dest.replace('\x5c', "/")`: every backslash becomes a
forward slash. -/
def normalizeSlashes (s : String) : String :=
  String.mk (s.data.map fun c => if c = '\\' then '/' else c)

/-- The `Path::parent()` operation on the string path model: everything before
the last slash, none when the path has no slash. -/
def parentDir (p : String) : Option String :=
  if '/' ∈ p.data then
    some (String.mk (((p.data.reverse.dropWhile fun c => c ≠ '/').drop 1).reverse))
  else none

/-- The constant `MAX_RETRIES` from `src/network/client.rs`. -/
def MAX_RETRIES : Nat := 3

/-- Embedding of `check_existing_file` (`src/io/file.rs`): false when the
path does not exist; an expected size mismatch returns false before any hash
computation; an expected hash mismatch returns false; otherwise true. The
second component counts how many times the hash was computed, making the
short-circuit observable. -/
def check_existing_file (md5fn : List Nat → String) (fs : String → Option (List Nat))
    (path : String) (expectedMd5 : Option String) (expectedSize : Option Nat) : Bool × Nat :=
  match fs path with
  | none => (false, 0)
  | some content =>
    match expectedSize with
    | some s =>
      if content.length = s then
        match expectedMd5 with
        | some m => if md5fn content = m then (true, 1) else (false, 1)
        | none => (true, 0)
      else (false, 0)
    | none =>
      match expectedMd5 with
      | some m => if md5fn content = m then (true, 1) else (false, 1)
      | none => (true, 0)

/-- Embedding of `calculate_md5` (`src/io/file.rs`): `File::open(path).unwrap()`
panics when the file cannot be opened, otherwise the streaming hash of the
full contents is returned. -/
def calculate_md5 (md5fn : List Nat → String) (fs : String → Option (List Nat))
    (path : String) : Md5Result :=
  match fs path with
  | none => .panicked
  | some content => .hash (md5fn content)

/-- Embedding of `should_skip_download` (`src/network/client.rs`). -/
def should_skip_download (md5fn : List Nat → String) (fs : String → Option (List Nat))
    (path : String) (md5 : Option String) (size : Option Nat) : Bool :=
  match md5, size with
  | some m, some s => (check_existing_file md5fn fs path (some m) (some s)).1
  | _, _ => false

/-- The size `fs::metadata(path).len()` when the path exists, 0 otherwise: the
resume offset of an attempt. -/
def onDiskSize (fs : String → Option (List Nat)) (path : String) : Nat :=
  match fs path with
  | some c => c.length
  | none => 0

/-- The chunk loop of `download_single_file`: before each read the
cancellation flag is checked; a read of 0 bytes ends the stream; each chunk
is appended to the file and the new absolute position is stored into
`downloaded_bytes`; a pending read error surfaces when the scripted chunks
are exhausted. -/
def streamChunks (env : Env) (path : String) (readErr : Option String) :
    List (List Nat) → Nat → St → Except String Unit × St
  | [], _, st =>
    match readStop env st with
    | (true, st) => (.error "Download interrupted", st)
    | (false, st) =>
      match readErr with
      | some e => (.error ("Read error: " ++ e), st)
      | none => (.ok (), st)
  | c :: rest, downloaded, st =>
    match readStop env st with
    | (true, st) => (.error "Download interrupted", st)
    | (false, st) =>
      if c.isEmpty then (.ok (), st)
      else
        let st := appendFile st path c
        streamChunks env path readErr rest (downloaded + c.length)
          (storeDownloaded st (downloaded + c.length))

/-- Embedding of `download_single_file` (`src/network/client.rs`): the resume
offset is the current on-disk size (0 when absent); the GET outcome is
consulted; 416, other non-success statuses and network errors are errors; on
a body, the file is opened in append mode, `downloaded_bytes` is stored to
the resume offset and the chunk loop runs. -/
def download_single_file (env : Env) (url path : String) (st : St) :
    Except String Unit × St :=
  let downloaded := onDiskSize st.fs path
  match doGet env url downloaded st with
  | (.netErr e, st) => (.error ("Network error: " ++ e), st)
  | (.rangeNotSat, st) =>
    (.error "Range not satisfiable. File may already be fully downloaded.", st)
  | (.httpErr code, st) => (.error ("HTTP error: " ++ code), st)
  | (.okBody chunks readErr, st) =>
    let st := ensureFile st path
    streamChunks env path readErr chunks downloaded (storeDownloaded st downloaded)

/-- Outcome of the `while retries > 0` loop in `download_file`. -/
inductive RetryOutcome where
  | success
  | exhausted (lastError : Option String)
  | cancelled
deriving DecidableEq

/-- The `while retries > 0` retry loop of `download_file`: on a failed
attempt, if cancellation was requested the whole file is aborted; otherwise
the partial file is deleted, the budget decremented and the same url
retried. -/
def retryLoop (env : Env) (url path : String) :
    Nat → Option String → St → RetryOutcome × St
  | 0, lastErr, st => (.exhausted lastErr, st)
  | r + 1, _, st =>
    match download_single_file env url path st with
    | (.ok _, st) => (.success, st)
    | (.error e, st) =>
      match readStop env st with
      | (true, st) => (.cancelled, st)
      | (false, st) => retryLoop env url path r (some e) (removeFile st path)

/-- The first loop of `download_file`: probe each mirror in order for a
content length; the first parsed length is recorded and added to
`total_bytes`.  Returns none when the cancellation check inside the loop
fired (the whole call returns false). -/
def probeLoop (env : Env) (dest : String) :
    List String → St → Option (Option Nat) × St
  | [], st => (some none, st)
  | b :: bases, st =>
    match readStop env st with
    | (true, st) => (none, st)
    | (false, st) =>
      match doHead env (b ++ dest) st with
      | (.resp _ (some n), st) => (some (some n), addTotal st n)
      | (_, st) => probeLoop env dest bases st

/-- The `fs::create_dir_all(parent)` step of `download_file`. -/
def tryMkdir (env : Env) (path dest : String) (st : St) : Bool × St :=
  match parentDir path with
  | none => (true, st)
  | some parent =>
    if env.mkdirOk then (true, { st with mkdirs := st.mkdirs ++ [parent] })
    else (false, addLog st (.dirError dest))

/-- The mirror loop of `download_file`: per mirror, a HEAD probe (failure or
non-success logs and advances to the next mirror), the expected size
`file_size.or_else(per-mirror content-length)`, the second pre-check
short-circuit, the retry loop, the post-loop cancellation check, the
exhaustion failure, and the checksum verification.  Falling off the end of
the list logs the all-CDNs-failed record.  The value none models a
`calculate_md5` panic. -/
def mirrorLoop (env : Env) (dest path : String) (expectedMd5 : Option String)
    (fileSize : Option Nat) : Nat → List String → St → Option (Bool × St)
  | _, [], st => some (false, addLog st (.allCdnsFailed dest))
  | i, b :: bases, st =>
    let url := b ++ dest
    match doHead env url st with
    | (.err, st) =>
      mirrorLoop env dest path expectedMd5 fileSize (i + 1) bases
        (addLog st (.cdnFailed (i + 1) dest))
    | (.resp ok len, st) =>
      if ok then
        let expectedSize := match fileSize with
          | some s => some s
          | none => len
        if (match expectedMd5, expectedSize with
            | some m, some s => (check_existing_file env.md5 st.fs path (some m) (some s)).1
            | _, _ => false) then
          some (true, st)
        else
          match retryLoop env url path MAX_RETRIES none st with
          | (.cancelled, st) => some (false, st)
          | (.exhausted lastErr, st) =>
            match readStop env st with
            | (true, st) => some (false, st)
            | (false, st) =>
              some (false, addLog st (.failedAfterRetries dest (lastErr.getD "")))
          | (.success, st) =>
            match readStop env st with
            | (true, st) => some (false, st)
            | (false, st) =>
              match expectedMd5 with
              | none => some (true, st)
              | some expected =>
                match readStop env st with
                | (true, st) => some (false, st)
                | (false, st) =>
                  match calculate_md5 env.md5 st.fs path with
                  | .panicked => none
                  | .hash actual =>
                    if actual = expected then some (true, st)
                    else
                      some (false,
                        removeFile (addLog st (.checksumFailed dest expected actual)) path)
      else
        mirrorLoop env dest path expectedMd5 fileSize (i + 1) bases
          (addLog st (.cdnFailed (i + 1) dest))

/-- Embedding of `download_file` (`src/network/client.rs`): the entry
cancellation check, backslash normalization, the global size probe, the first
pre-check short-circuit, directory creation, and the mirror loop. -/
def download_file (env : Env) (cfg : List String) (dest0 folder : String)
    (expectedMd5 : Option String) (st : St) : Option (Bool × St) :=
  match readStop env st with
  | (true, st) => some (false, st)
  | (false, st) =>
    let dest := normalizeSlashes dest0
    let path := folder ++ "/" ++ dest
    match probeLoop env dest cfg st with
    | (none, st) => some (false, st)
    | (some fileSize, st) =>
      if should_skip_download env.md5 st.fs path expectedMd5 fileSize then
        some (true, st)
      else
        match tryMkdir env path dest st with
        | (false, st) => some (false, st)
        | (true, st) => mirrorLoop env dest path expectedMd5 fileSize 0 cfg st

/-- Embedding of `download_resources` (`src/io/util.rs`): the sequential
driver loop; the cancellation flag is checked before each file; entries
without a `dest` are skipped; each success bumps the shared success counter.
The value none models a panic propagating out of `download_file`. -/
def download_resources (env : Env) (cfg : List String) (folder : String) :
    List Resource → St → Option St
  | [], st => some st
  | item :: rest, st =>
    match readStop env st with
    | (true, st) => some st
    | (false, st) =>
      match item.dest with
      | none => download_resources env cfg folder rest st
      | some d =>
        match download_file env cfg d folder item.md5 st with
        | none => none
        | some (ok, st) =>
          download_resources env cfg folder rest
            (if ok then { st with success := st.success + 1 } else st)

/-- The inner mirror loop of `calculate_total_size` (`src/io/util.rs`): the
url is `format!("\x7b\x7d/\x7b\x7d", base_url, dest)` — base, a slash, and
the raw dest —; a cached url answers without a request; a response with a
parsed content length caches and answers; anything else advances to the next
base. -/
def calculate_total_size_probe (env : Env) (d : String) :
    List String → List (String × Nat) → St → Option Nat × List (String × Nat) × St
  | [], cache, st => (none, cache, st)
  | b :: bases, cache, st =>
    let url := b ++ "/" ++ d
    match cache.lookup url with
    | some n => (some n, cache, st)
    | none =>
      match doHead env url st with
      | (.resp _ (some n), st) => (some n, (url, n) :: cache, st)
      | (_, st) => calculate_total_size_probe env d bases cache st

/-- Embedding of `calculate_total_size` (`src/io/util.rs`): sum over the
resources of the first probed content length, with the per-batch url cache. -/
def calculate_total_size (env : Env) (cfg : List String) :
    List Resource → List (String × Nat) → Nat → St → Nat × St
  | [], _, acc, st => (acc, st)
  | r :: rest, cache, acc, st =>
    match r.dest with
    | none => calculate_total_size env cfg rest cache acc st
    | some d =>
      match calculate_total_size_probe env d cfg cache st with
      | (some n, cache, st) => calculate_total_size env cfg rest cache (acc + n) st
      | (none, cache, st) => calculate_total_size env cfg rest cache acc st

/-- The fresh state at process start: the given local disk, zeroed counters,
empty traces. -/
def initSt (fs0 : String → Option (List Nat)) : St :=
  ⟨fs0, 0, 0, [], 0, 0, 0, 0, [], [], [], []⟩

/-- Embedding of `track_progress` (`src/io/util.rs`): the shared counters are created with
`total_bytes` initialised to the estimated total and `downloaded_bytes` to 0. -/
def track_progress (total : Nat) (st : St) : St :=
  { st with totalBytes := total, downloadedBytes := 0 }

/-- The `main` sequence relevant to the progress counters: the batch
size-estimation pass, counter initialisation, then the driver loop. -/
def runBatch (env : Env) (cfg : List String) (folder : String)
    (resources : List Resource) (fs0 : String → Option (List Nat)) : Option St :=
  match calculate_total_size env cfg resources [] 0 (initSt fs0) with
  | (total, st) => download_resources env cfg folder resources (track_progress total st)

end WuwaDL

namespace WuwaDL

/-- Modelled from the spec: `computeHash(path) -> hash` "fails with `IOError`
if the file cannot be opened or read" — the spec's model of the hash
component, in which failure is a recoverable error value returned to the
caller.  Compare with `calculate_md5`, whose only failure behaviour is the
`.unwrap()` panic. -/
def computeHash_specModel (md5fn : List Nat → String) (fs : String → Option (List Nat))
    (path : String) : Except String String :=
  match fs path with
  | none => .error "IOError"
  | some content => .ok (md5fn content)

/-- An empty local disk. -/
def fs0 : String → Option (List Nat) := fun _ => none

/-- The fresh state over an empty disk. -/
def st0 : St := initSt fs0

/-- Scenario for C1: both mirrors answer HEAD with a length, mirror `m1/`
fails every GET while mirror `m2/` would serve an empty body successfully. -/
def envC1 : Env :=
  { stop := fun _ => false
    head := fun _ _ => .resp true (some 4)
    get := fun _ u _ => if u = "m1/f" then .netErr "boom" else .okBody [] none
    md5 := fun _ => "h"
    mkdirOk := true }

/-- The run of `download_file` in the C1 scenario. -/
def dfC1 : Option (Bool × St) := download_file envC1 ["m1/", "m2/"] "f" "d" none st0

/-- The result state of the C1 run. -/
def resC1 : Bool × St := dfC1.getD (false, st0)

/-- Scenario for the C1 witness: every GET fails with the same network
error on every mirror. -/
def envW1 : Env :=
  { stop := fun _ => false
    head := fun _ _ => .resp true (some 4)
    get := fun _ _ _ => .netErr "E"
    md5 := fun _ => "h"
    mkdirOk := true }

/-- Scenario for C2: mirror `m1/` serves content hashing to "bad", mirror
`m2/` would serve content hashing to "good" (the expected hash). -/
def envC2 : Env :=
  { stop := fun _ => false
    head := fun _ _ => .resp true (some 1)
    get := fun _ u _ => if u = "m1/f" then .okBody [[7]] none else .okBody [[8]] none
    md5 := fun c => if c = [7] then "bad" else if c = [8] then "good" else "?"
    mkdirOk := true }

/-- Scenario for C4: the first GET streams one 5-byte chunk and then hits a
read error; the retry then succeeds with an empty body. -/
def envC4 : Env :=
  { stop := fun _ => false
    head := fun _ _ => .resp true (some 5)
    get := fun n _ _ => if n = 0 then .okBody [[1, 1, 1, 1, 1]] (some "boom") else .okBody [] none
    md5 := fun _ => "h"
    mkdirOk := true }

/-- Scenario for C5: the global probe reports size 3 but the mirror reports
size 5; the local file has 5 bytes and the expected hash. -/
def envC5 : Env :=
  { stop := fun _ => false
    head := fun n _ => if n = 0 then .resp true (some 3) else .resp true (some 5)
    get := fun _ _ _ => .okBody [] none
    md5 := fun c => if c = [1, 2, 3, 4, 5] then "h" else "x"
    mkdirOk := true }

/-- The local disk for the C5 scenario: the target file already holds the
correct 5 bytes. -/
def fsC5 : String → Option (List Nat) := fun p => if p = "d/f" then some [1, 2, 3, 4, 5] else none

/-- Scenario for the C5 witness, global-size part: every HEAD reports size 5. -/
def envW5 : Env :=
  { stop := fun _ => false
    head := fun _ _ => .resp true (some 5)
    get := fun _ _ _ => .okBody [] none
    md5 := fun c => if c = [1, 2, 3, 4, 5] then "h" else "x"
    mkdirOk := true }

/-- Scenario for the C5 witness, fallback part: the global probe gets no
content length, the per-mirror probe reports size 5. -/
def envW5b : Env :=
  { stop := fun _ => false
    head := fun n _ => if n = 0 then .resp true none else .resp true (some 5)
    get := fun _ _ _ => .okBody [] none
    md5 := fun c => if c = [1, 2, 3, 4, 5] then "h" else "x"
    mkdirOk := true }

/-- Scenario with a dead network: every HEAD fails. -/
def envC7 : Env :=
  { stop := fun _ => false
    head := fun _ _ => .err
    get := fun _ _ _ => .okBody [] none
    md5 := fun _ => "h"
    mkdirOk := true }

/-- The run of `download_file` in the dead-network scenario, with a
backslash in the destination. -/
def dfC7 : Option (Bool × St) := download_file envC7 ["B"] "a\\b" "d" none st0

/-- The result state of that run. -/
def resC7 : Bool × St := dfC7.getD (false, st0)

/-- Scenario for C9: every HEAD reports size 5, every GET serves an empty
body. -/
def envC9 : Env :=
  { stop := fun _ => false
    head := fun _ _ => .resp true (some 5)
    get := fun _ _ _ => .okBody [] none
    md5 := fun _ => "h"
    mkdirOk := true }

/-- Scenario for C6: the cancellation flag is already set. -/
def envStop : Env :=
  { stop := fun _ => true
    head := fun _ _ => .err
    get := fun _ _ _ => .netErr "x"
    md5 := fun _ => "h"
    mkdirOk := true }

end WuwaDL

namespace WuwaDL

end WuwaDL

namespace WuwaDL

lemma streamChunks_traces (env : Env) (path : String) (rerr : Option String) :
    ∀ (chunks : List (List Nat)) (d : Nat) (st : St),
      (streamChunks env path rerr chunks d st).2.gets = st.gets ∧
      (streamChunks env path rerr chunks d st).2.heads = st.heads ∧
      (streamChunks env path rerr chunks d st).2.log = st.log := by
  intro chunks
  induction chunks with
  | nil =>
    intro d st
    cases h : env.stop st.nStop <;> cases rerr <;>
      simp [streamChunks, readStop, h]
  | cons c rest ih =>
    intro d st
    cases h : env.stop st.nStop with
    | true => simp [streamChunks, readStop, h]
    | false =>
      by_cases hc : c.isEmpty
      · simp [streamChunks, readStop, h, hc]
      · have := ih (d + c.length)
          (storeDownloaded (appendFile { st with nStop := st.nStop + 1 } path c) (d + c.length))
        simp only [streamChunks, readStop, h, Bool.false_eq_true, if_false, hc]
        simpa [storeDownloaded, appendFile] using this

lemma download_single_file_traces (env : Env) (url path : String) (st : St) :
    (download_single_file env url path st).2.gets = st.gets ++ [(url, onDiskSize st.fs path)] ∧
    (download_single_file env url path st).2.heads = st.heads ∧
    (download_single_file env url path st).2.log = st.log := by
  cases hg : env.get st.nGet url (onDiskSize st.fs path) with
  | netErr e => simp [download_single_file, doGet, hg]
  | rangeNotSat => simp [download_single_file, doGet, hg]
  | httpErr code => simp [download_single_file, doGet, hg]
  | okBody chunks rerr =>
    have := streamChunks_traces env path rerr chunks (onDiskSize st.fs path)
      (storeDownloaded (ensureFile
        { st with nGet := st.nGet + 1, gets := st.gets ++ [(url, onDiskSize st.fs path)] } path)
        (onDiskSize st.fs path))
    simp only [download_single_file, doGet, hg]
    simpa [storeDownloaded, ensureFile] using this

lemma retryLoop_traces (env : Env) (url path : String) :
    ∀ (r : Nat) (le : Option String) (st : St), ∃ offs : List Nat,
      (retryLoop env url path r le st).2.gets = st.gets ++ offs.map (fun o => (url, o)) ∧
      offs.length ≤ r ∧
      (retryLoop env url path r le st).2.heads = st.heads ∧
      (retryLoop env url path r le st).2.log = st.log := by
  intro r le st
  induction r, le, st using retryLoop.induct env url path with
  | case1 le st => exact ⟨[], by simp [retryLoop], by simp, rfl, rfl⟩
  | case2 r le st u st1 hres =>
    obtain ⟨hg, hh, hl⟩ := download_single_file_traces env url path st
    rw [hres] at hg hh hl
    refine ⟨[onDiskSize st.fs path], ?_, by simp, ?_, ?_⟩
    · simp only [retryLoop, hres]; simpa using hg
    · simp only [retryLoop, hres]; exact hh
    · simp only [retryLoop, hres]; exact hl
  | case3 r le st e st1 hres st2 hr =>
    obtain ⟨hg, hh, hl⟩ := download_single_file_traces env url path st
    rw [hres] at hg hh hl
    simp only [readStop, Prod.mk.injEq] at hr
    obtain ⟨hrb, hrs⟩ := hr
    subst hrs
    refine ⟨[onDiskSize st.fs path], ?_, by simp, ?_, ?_⟩
    · simp only [retryLoop, hres, readStop, hrb]; simpa using hg
    · simp only [retryLoop, hres, readStop, hrb]; exact hh
    · simp only [retryLoop, hres, readStop, hrb]; exact hl
  | case4 r le st e st1 hres st2 hr ih =>
    obtain ⟨hg, hh, hl⟩ := download_single_file_traces env url path st
    rw [hres] at hg hh hl
    simp only [readStop, Prod.mk.injEq] at hr
    obtain ⟨hrb, hrs⟩ := hr
    subst hrs
    obtain ⟨offs, ihg, ihn, ihh, ihl⟩ := ih
    refine ⟨onDiskSize st.fs path :: offs, ?_, by simpa using ihn, ?_, ?_⟩
    · have hg2 : st1.gets = st.gets ++ [(url, onDiskSize st.fs path)] := hg
      simp only [retryLoop, hres, readStop, hrb]
      rw [ihg]
      simp only [removeFile]
      simp [hg2]
    · simp only [retryLoop, hres, readStop, hrb]
      rw [ihh]
      simp only [removeFile]
      simpa using hh
    · simp only [retryLoop, hres, readStop, hrb]
      rw [ihl]
      simp only [removeFile]
      simpa using hl

lemma probeLoop_traces (env : Env) (dest : String) :
    ∀ (bases : List String) (st : St),
      (probeLoop env dest bases st).2.gets = st.gets ∧
      (probeLoop env dest bases st).2.log = st.log ∧
      ∃ hs, (probeLoop env dest bases st).2.heads = st.heads ++ hs ∧
        ∀ u ∈ hs, ∃ b ∈ bases, u = b ++ dest := by
  intro bases st
  induction bases, st using probeLoop.induct env dest with
  | case1 st => exact ⟨rfl, rfl, [], by simp [probeLoop], by simp⟩
  | case2 b bases st st1 hr =>
    simp only [readStop, Prod.mk.injEq] at hr
    obtain ⟨hrb, hrs⟩ := hr
    refine ⟨?_, ?_, [], ?_, by simp⟩ <;> simp [probeLoop, readStop, hrb]
  | case3 b bases st st1 hr ok n st2 hh =>
    simp only [readStop, Prod.mk.injEq] at hr
    obtain ⟨hrb, hrs⟩ := hr
    subst hrs
    simp only [doHead, Prod.mk.injEq] at hh
    obtain ⟨hhb, hhs⟩ := hh
    refine ⟨?_, ?_, [b ++ dest], ?_, ?_⟩
    · simp [probeLoop, readStop, hrb, doHead, hhb, addTotal]
    · simp [probeLoop, readStop, hrb, doHead, hhb, addTotal]
    · simp [probeLoop, readStop, hrb, doHead, hhb, addTotal]
    · intro u hu; simp at hu; exact ⟨b, by simp, hu⟩
  | case4 b bases st st1 hr out st2 hne hh ih =>
    simp only [readStop, Prod.mk.injEq] at hr
    obtain ⟨hrb, hrs⟩ := hr
    subst hrs
    simp only [doHead, Prod.mk.injEq] at hh
    obtain ⟨hhb, hhs⟩ := hh
    obtain ⟨ig, il, hs', ih1, ih2⟩ := ih
    rw [← hhs] at ig il ih1
    have hred : probeLoop env dest (b :: bases) st =
        probeLoop env dest bases
          ({ st with
             nStop := st.nStop + 1
             nHead := st.nHead + 1
             heads := st.heads ++ [b ++ dest] }) := by
      cases out with
      | err => simp [probeLoop, readStop, hrb, doHead, hhb]
      | resp ok len =>
        cases len with
        | none => simp [probeLoop, readStop, hrb, doHead, hhb]
        | some n => exact (hne ok n rfl).elim
    refine ⟨?_, ?_, (b ++ dest) :: hs', ?_, ?_⟩
    · rw [hred]; simpa using ig
    · rw [hred]; simpa using il
    · rw [hred]; simpa using ih1
    · intro u hu
      rcases List.mem_cons.mp hu with h | h
      · exact ⟨b, by simp, h⟩
      · obtain ⟨b', hb', he⟩ := ih2 u h
        exact ⟨b', by simp [hb'], he⟩

end WuwaDL

namespace WuwaDL

lemma readStop_eqs (env : Env) (st : St) (bb : Bool) (st' : St)
    (h : readStop env st = (bb, st')) :
    st'.gets = st.gets ∧ st'.heads = st.heads ∧ st'.log = st.log ∧
    st'.fs = st.fs ∧ st'.dlTrace = st.dlTrace ∧ st'.totalBytes = st.totalBytes := by
  simp only [readStop, Prod.mk.injEq] at h
  rw [← h.2]
  exact ⟨rfl, rfl, rfl, rfl, rfl, rfl⟩

lemma doHead_eqs (env : Env) (u : String) (st : St) (out : HeadOut) (st' : St)
    (h : doHead env u st = (out, st')) :
    st'.gets = st.gets ∧ st'.heads = st.heads ++ [u] ∧ st'.log = st.log ∧ st'.fs = st.fs := by
  simp only [doHead, Prod.mk.injEq] at h
  rw [← h.2]
  exact ⟨rfl, rfl, rfl, rfl⟩

lemma retryLoop_eqs (env : Env) (url path : String) (r : Nat) (le : Option String)
    (st : St) (out : RetryOutcome) (st' : St)
    (h : retryLoop env url path r le st = (out, st')) :
    ∃ offs : List Nat, st'.gets = st.gets ++ offs.map (fun o => (url, o)) ∧
      offs.length ≤ r ∧ st'.heads = st.heads ∧ st'.log = st.log := by
  obtain ⟨offs, hg, hn, hh, hl⟩ := retryLoop_traces env url path r le st
  rw [h] at hg hh hl
  exact ⟨offs, hg, hn, hh, hl⟩

lemma mirrorLoop_traces (env : Env) (dest path : String) (md5 : Option String)
    (fsz : Option Nat) :
    ∀ (i : Nat) (bases : List String) (st : St) (res : Bool × St),
      mirrorLoop env dest path md5 fsz i bases st = some res →
      ∃ u offs hs, res.2.gets = st.gets ++ offs.map (fun o => (u, o)) ∧
        offs.length ≤ MAX_RETRIES ∧ (offs ≠ [] → ∃ b ∈ bases, u = b ++ dest) ∧
        res.2.heads = st.heads ++ hs ∧ (∀ v ∈ hs, ∃ b ∈ bases, v = b ++ dest) := by
  intro i bases st
  induction i, bases, st using mirrorLoop.induct env dest path md5 fsz with
  | case1 i st =>
    intro res hres
    simp only [mirrorLoop, Option.some.injEq] at hres
    subst hres
    exact ⟨dest, [], [], by simp [addLog], by simp [MAX_RETRIES], by simp, by simp [addLog], by simp⟩
  | case2 i b bases st url st1 hh ih =>
    intro res hres
    simp only [mirrorLoop, hh] at hres
    obtain ⟨hg1, hh1, _, _⟩ := doHead_eqs env (b ++ dest) st .err st1 hh
    obtain ⟨u, offs, hs, pg, pn, pne, ph, phs⟩ := ih res hres
    refine ⟨u, offs, (b ++ dest) :: hs, ?_, pn, ?_, ?_, ?_⟩
    · rw [pg]; simp [addLog, hg1]
    · intro hne; obtain ⟨b', hb', he⟩ := pne hne; exact ⟨b', by simp [hb'], he⟩
    · rw [ph]; simp [addLog, hh1]
    · intro v hv
      rcases List.mem_cons.mp hv with h | h
      · exact ⟨b, by simp, h⟩
      · obtain ⟨b', hb', he⟩ := phs v h
        exact ⟨b', by simp [hb'], he⟩
  | case3 i b bases st url len st1 esz hpre hh =>
    intro res hres
    simp only [mirrorLoop, hh, if_true, hpre] at hres
    obtain ⟨hg1, hh1, _, _⟩ := doHead_eqs env (b ++ dest) st _ st1 hh
    simp at hres
    subst hres
    exact ⟨dest, [], [b ++ dest], by simp [hg1], by simp [MAX_RETRIES], by simp,
      by simp [hh1], fun v hv => ⟨b, by simp, by simpa using hv⟩⟩
  | case4 i b bases st url len st1 esz hpre st2 hr hh =>
    intro res hres
    simp only [mirrorLoop, hh, hpre, hr] at hres
    obtain ⟨hg1, hh1, _, _⟩ := doHead_eqs env (b ++ dest) st _ st1 hh
    obtain ⟨offs, rg, rn, rh, _⟩ := retryLoop_eqs env (b ++ dest) path MAX_RETRIES none st1 _ st2 hr
    simp at hres
    subst hres
    refine ⟨b ++ dest, offs, [b ++ dest], ?_, rn, fun _ => ⟨b, by simp, rfl⟩, ?_,
      fun v hv => ⟨b, by simp, by simpa using hv⟩⟩
    · simp [rg, hg1]
    · simp [rh, hh1]
  | case5 i b bases st url len st1 esz hpre lastErr st2 hr st3 hs3 hh =>
    intro res hres
    simp only [mirrorLoop, hh, hpre, hr, hs3] at hres
    obtain ⟨hg1, hh1, _, _⟩ := doHead_eqs env (b ++ dest) st _ st1 hh
    obtain ⟨offs, rg, rn, rh, _⟩ := retryLoop_eqs env (b ++ dest) path MAX_RETRIES none st1 _ st2 hr
    obtain ⟨sg, sh, _, _, _, _⟩ := readStop_eqs env st2 _ st3 hs3
    simp at hres
    subst hres
    refine ⟨b ++ dest, offs, [b ++ dest], ?_, rn, fun _ => ⟨b, by simp, rfl⟩, ?_,
      fun v hv => ⟨b, by simp, by simpa using hv⟩⟩
    · simp [sg, rg, hg1]
    · simp [sh, rh, hh1]
  | case6 i b bases st url len st1 esz hpre lastErr st2 hr st3 hs3 hh =>
    intro res hres
    simp only [mirrorLoop, hh, hpre, hr, hs3] at hres
    obtain ⟨hg1, hh1, _, _⟩ := doHead_eqs env (b ++ dest) st _ st1 hh
    obtain ⟨offs, rg, rn, rh, _⟩ := retryLoop_eqs env (b ++ dest) path MAX_RETRIES none st1 _ st2 hr
    obtain ⟨sg, sh, _, _, _, _⟩ := readStop_eqs env st2 _ st3 hs3
    simp at hres
    subst hres
    refine ⟨b ++ dest, offs, [b ++ dest], ?_, rn, fun _ => ⟨b, by simp, rfl⟩, ?_,
      fun v hv => ⟨b, by simp, by simpa using hv⟩⟩
    · simp [addLog, sg, rg, hg1]
    · simp [addLog, sh, rh, hh1]
  | case7 i b bases st url len st1 esz hpre st2 hr st3 hs3 hh =>
    intro res hres
    simp only [mirrorLoop, hh, hpre, hr, hs3] at hres
    obtain ⟨hg1, hh1, _, _⟩ := doHead_eqs env (b ++ dest) st _ st1 hh
    obtain ⟨offs, rg, rn, rh, _⟩ := retryLoop_eqs env (b ++ dest) path MAX_RETRIES none st1 _ st2 hr
    obtain ⟨sg, sh, _, _, _, _⟩ := readStop_eqs env st2 _ st3 hs3
    simp at hres
    subst hres
    refine ⟨b ++ dest, offs, [b ++ dest], ?_, rn, fun _ => ⟨b, by simp, rfl⟩, ?_,
      fun v hv => ⟨b, by simp, by simpa using hv⟩⟩
    · simp [sg, rg, hg1]
    · simp [sh, rh, hh1]
  | case8 i b bases st url len st1 esz hpre st2 hr st3 hs3 hm hh =>
    intro res hres
    simp only [mirrorLoop, hh, hpre, hr, hs3, hm] at hres
    obtain ⟨hg1, hh1, _, _⟩ := doHead_eqs env (b ++ dest) st _ st1 hh
    obtain ⟨offs, rg, rn, rh, _⟩ := retryLoop_eqs env (b ++ dest) path MAX_RETRIES none st1 _ st2 hr
    obtain ⟨sg, sh, _, _, _, _⟩ := readStop_eqs env st2 _ st3 hs3
    simp at hres
    subst hres
    refine ⟨b ++ dest, offs, [b ++ dest], ?_, rn, fun _ => ⟨b, by simp, rfl⟩, ?_,
      fun v hv => ⟨b, by simp, by simpa using hv⟩⟩
    · simp [sg, rg, hg1]
    · simp [sh, rh, hh1]
  | case9 i b bases st url len st1 esz hpre st2 hr st3 hs3 parent hm st4 hs4 hh =>
    intro res hres
    rw [hm] at hpre
    simp only [mirrorLoop, hh, hm, hpre, hr, hs3, hs4] at hres
    obtain ⟨hg1, hh1, _, _⟩ := doHead_eqs env (b ++ dest) st _ st1 hh
    obtain ⟨offs, rg, rn, rh, _⟩ := retryLoop_eqs env (b ++ dest) path MAX_RETRIES none st1 _ st2 hr
    obtain ⟨sg, sh, _, _, _, _⟩ := readStop_eqs env st2 _ st3 hs3
    obtain ⟨s4g, s4h, _, _, _, _⟩ := readStop_eqs env st3 _ st4 hs4
    simp at hres
    subst hres
    refine ⟨b ++ dest, offs, [b ++ dest], ?_, rn, fun _ => ⟨b, by simp, rfl⟩, ?_,
      fun v hv => ⟨b, by simp, by simpa using hv⟩⟩
    · simp [s4g, sg, rg, hg1]
    · simp [s4h, sh, rh, hh1]
  | case10 i b bases st url len st1 esz hpre st2 hr st3 hs3 parent hm st4 hs4 hpanic hh =>
    intro res hres
    rw [hm] at hpre
    simp only [mirrorLoop, hh, hm, hpre, hr, hs3, hs4, hpanic] at hres
    simp at hres
  | case11 i b bases st url len st1 esz hpre st2 hr st3 hs3 st4 hs4 actual hmd hh hme =>
    intro res hres
    rw [hme] at hpre
    simp only [mirrorLoop, hh, hme, hpre, hr, hs3, hs4, hmd] at hres
    obtain ⟨hg1, hh1, _, _⟩ := doHead_eqs env (b ++ dest) st _ st1 hh
    obtain ⟨offs, rg, rn, rh, _⟩ := retryLoop_eqs env (b ++ dest) path MAX_RETRIES none st1 _ st2 hr
    obtain ⟨sg, sh, _, _, _, _⟩ := readStop_eqs env st2 _ st3 hs3
    obtain ⟨s4g, s4h, _, _, _, _⟩ := readStop_eqs env st3 _ st4 hs4
    simp at hres
    subst hres
    refine ⟨b ++ dest, offs, [b ++ dest], ?_, rn, fun _ => ⟨b, by simp, rfl⟩, ?_,
      fun v hv => ⟨b, by simp, by simpa using hv⟩⟩
    · simp [s4g, sg, rg, hg1]
    · simp [s4h, sh, rh, hh1]
  | case12 i b bases st url len st1 esz hpre st2 hr st3 hs3 parent hme st4 hs4 actual hmd hne hh =>
    intro res hres
    rw [hme] at hpre
    simp only [mirrorLoop, hh, hme, hpre, hr, hs3, hs4, hmd, hne] at hres
    obtain ⟨hg1, hh1, _, _⟩ := doHead_eqs env (b ++ dest) st _ st1 hh
    obtain ⟨offs, rg, rn, rh, _⟩ := retryLoop_eqs env (b ++ dest) path MAX_RETRIES none st1 _ st2 hr
    obtain ⟨sg, sh, _, _, _, _⟩ := readStop_eqs env st2 _ st3 hs3
    obtain ⟨s4g, s4h, _, _, _, _⟩ := readStop_eqs env st3 _ st4 hs4
    simp at hres
    subst hres
    refine ⟨b ++ dest, offs, [b ++ dest], ?_, rn, fun _ => ⟨b, by simp, rfl⟩, ?_,
      fun v hv => ⟨b, by simp, by simpa using hv⟩⟩
    · simp [removeFile, addLog, s4g, sg, rg, hg1]
    · simp [removeFile, addLog, s4h, sh, rh, hh1]
  | case13 i b bases st url ok len st1 hh hnok ih =>
    intro res hres
    simp only [mirrorLoop, hh, hnok] at hres
    obtain ⟨hg1, hh1, _, _⟩ := doHead_eqs env (b ++ dest) st _ st1 hh
    obtain ⟨u, offs, hs, pg, pn, pne, ph, phs⟩ := ih res (by simpa [Bool.not_eq_true] using hres)
    refine ⟨u, offs, (b ++ dest) :: hs, ?_, pn, ?_, ?_, ?_⟩
    · rw [pg]; simp [addLog, hg1]
    · intro hne; obtain ⟨b', hb', he⟩ := pne hne; exact ⟨b', by simp [hb'], he⟩
    · rw [ph]; simp [addLog, hh1]
    · intro v hv
      rcases List.mem_cons.mp hv with h | h
      · exact ⟨b, by simp, h⟩
      · obtain ⟨b', hb', he⟩ := phs v h
        exact ⟨b', by simp [hb'], he⟩

end WuwaDL

namespace WuwaDL

lemma download_file_traces (env : Env) (cfg : List String) (dest0 folder : String)
    (md5 : Option String) (st : St) (res : Bool × St)
    (h : download_file env cfg dest0 folder md5 st = some res) :
    ∃ u offs hs, res.2.gets = st.gets ++ offs.map (fun o => (u, o)) ∧
      offs.length ≤ MAX_RETRIES ∧
      (offs ≠ [] → ∃ b ∈ cfg, u = b ++ normalizeSlashes dest0) ∧
      res.2.heads = st.heads ++ hs ∧
      (∀ v ∈ hs, ∃ b ∈ cfg, v = b ++ normalizeSlashes dest0) := by
  unfold download_file at h
  cases hstop : env.stop st.nStop with
  | true =>
    simp only [readStop, hstop] at h
    simp at h
    subst h
    exact ⟨normalizeSlashes dest0, [], [], by simp, by simp [MAX_RETRIES], by simp, by simp,
      by simp⟩
  | false =>
    simp only [readStop, hstop] at h
    obtain ⟨pg, pl, hs0, ph, phm⟩ :=
      probeLoop_traces env (normalizeSlashes dest0) cfg { st with nStop := st.nStop + 1 }
    cases hp : probeLoop env (normalizeSlashes dest0) cfg { st with nStop := st.nStop + 1 } with
    | mk osz st2 =>
      rw [hp] at h pg pl ph
      simp only at pg pl ph
      cases osz with
      | none =>
        replace h : some (false, st2) = some res := h
        simp at h
        subst h
        exact ⟨normalizeSlashes dest0, [], hs0, by simp [pg], by simp [MAX_RETRIES], by simp,
          by simpa using ph, phm⟩
      | some fsz =>
        replace h :
            (if should_skip_download env.md5 st2.fs (folder ++ "/" ++ normalizeSlashes dest0)
                md5 fsz = true then
              some (true, st2)
            else
              match tryMkdir env (folder ++ "/" ++ normalizeSlashes dest0)
                  (normalizeSlashes dest0) st2 with
              | (false, st) => some (false, st)
              | (true, st) =>
                mirrorLoop env (normalizeSlashes dest0)
                  (folder ++ "/" ++ normalizeSlashes dest0) md5 fsz 0 cfg st) = some res := h
        by_cases hskip : should_skip_download env.md5 st2.fs
            (folder ++ "/" ++ normalizeSlashes dest0) md5 fsz = true
        · rw [if_pos hskip] at h
          simp at h
          subst h
          exact ⟨normalizeSlashes dest0, [], hs0, by simp [pg], by simp [MAX_RETRIES], by simp,
            by simpa using ph, phm⟩
        · rw [if_neg hskip] at h
          cases hmk : tryMkdir env (folder ++ "/" ++ normalizeSlashes dest0)
              (normalizeSlashes dest0) st2 with
          | mk ok st3 =>
            have h3 : st3.gets = st2.gets ∧ st3.heads = st2.heads := by
              unfold tryMkdir at hmk
              cases hpd : parentDir (folder ++ "/" ++ normalizeSlashes dest0) with
              | none => rw [hpd] at hmk; simp at hmk; simp [← hmk.2]
              | some parent =>
                rw [hpd] at hmk
                cases hmo : env.mkdirOk with
                | true => rw [hmo] at hmk; simp at hmk; simp [← hmk.2]
                | false => rw [hmo] at hmk; simp at hmk; simp [← hmk.2, addLog]
            rw [hmk] at h
            cases ok with
            | false =>
              replace h : some (false, st3) = some res := h
              simp at h
              subst h
              refine ⟨normalizeSlashes dest0, [], hs0, by simp [h3.1, pg], by simp [MAX_RETRIES],
                by simp, ?_, phm⟩
              rw [h3.2]
              simpa using ph
            | true =>
              obtain ⟨u, offs, hs1, mg, mn, mne, mh, mhm⟩ :=
                mirrorLoop_traces env (normalizeSlashes dest0)
                  (folder ++ "/" ++ normalizeSlashes dest0) md5 fsz 0 cfg st3 res h
              refine ⟨u, offs, hs0 ++ hs1, ?_, mn, mne, ?_, ?_⟩
              · rw [mg, h3.1, pg]
              · rw [mh, h3.2]
                rw [show st2.heads = st.heads ++ hs0 from by simpa using ph]
                simp
              · intro v hv
                rcases List.mem_append.mp hv with hv | hv
                · exact phm v hv
                · exact mhm v hv

end WuwaDL

namespace WuwaDL

lemma retryLoop_succ (env : Env) (url path : String) (r : Nat) (le : Option String) (st : St) :
    retryLoop env url path (r + 1) le st =
      match download_single_file env url path st with
      | (.ok _, st) => (.success, st)
      | (.error e, st) =>
        match readStop env st with
        | (true, st) => (.cancelled, st)
        | (false, st) => retryLoop env url path r (some e) (removeFile st path) := rfl

lemma retryLoop_allFail (env : Env) (url path em : String)
    (hstop : ∀ n, env.stop n = false)
    (hget : ∀ n off, env.get n url off = .netErr em) :
    ∀ (r' : Nat) (le : Option String) (st : St), ∃ offs : List Nat,
      retryLoop env url path (r' + 1) le st =
        (.exhausted (some ("Network error: " ++ em)),
          { st with
            fs := fun p => if p = path then none else st.fs p
            nStop := st.nStop + (r' + 1)
            nGet := st.nGet + (r' + 1)
            gets := st.gets ++ offs.map (fun o => (url, o)) }) ∧
      offs.length = r' + 1 := by
  intro r'
  induction r' with
  | zero =>
    intro le st
    refine ⟨[onDiskSize st.fs path], ?_, rfl⟩
    simp only [retryLoop, download_single_file, doGet, hget, readStop, hstop, removeFile]
    rfl
  | succ n ih =>
    intro le st
    obtain ⟨offs, heq, hlen⟩ := ih (some ("Network error: " ++ em))
      (removeFile ({ st with
        nStop := st.nStop + 1
        nGet := st.nGet + 1
        gets := st.gets ++ [(url, onDiskSize st.fs path)] }) path)
    refine ⟨onDiskSize st.fs path :: offs, ?_, by simp [hlen]⟩
    rw [retryLoop_succ]
    simp only [download_single_file, doGet, hget, readStop, hstop]
    rw [heq]
    simp only [removeFile]
    congr 1
    congr 1
    · funext p
      by_cases hp : p = path <;> simp [hp]
    · omega
    · omega
    · simp

end WuwaDL

namespace WuwaDL

lemma mirrorLoop_allFail (env : Env) (b1 : String) (rest : List String)
    (dest path em : String) (L : Nat) (st : St)
    (hstop : ∀ n, env.stop n = false)
    (hget : ∀ n off, env.get n (b1 ++ dest) off = .netErr em)
    (hhead : env.head st.nHead (b1 ++ dest) = .resp true (some L)) :
    ∃ st', mirrorLoop env dest path none (some L) 0 (b1 :: rest) st = some (false, st') ∧
      st'.gets.map Prod.fst = st.gets.map Prod.fst ++
        [b1 ++ dest, b1 ++ dest, b1 ++ dest] ∧
      st'.fs path = none ∧
      st'.log = st.log ++ [.failedAfterRetries dest ("Network error: " ++ em)] := by
  obtain ⟨offs, heq, hlen⟩ := retryLoop_allFail env (b1 ++ dest) path em hstop hget 2 none
    ({ st with nHead := st.nHead + 1, heads := st.heads ++ [b1 ++ dest] })
  obtain ⟨a1, a2, a3, rfl⟩ := List.length_eq_three.mp hlen
  simp only [mirrorLoop, doHead, hhead]
  rw [show MAX_RETRIES = 2 + 1 from rfl, heq]
  simp only [readStop, hstop]
  refine ⟨_, rfl, ?_, ?_, ?_⟩ <;> simp [addLog]

end WuwaDL

namespace WuwaDL

lemma download_file_allFail (env : Env) (b1 : String) (rest : List String)
    (dest0 folder em : String) (L : Nat) (st : St)
    (hstop : ∀ n, env.stop n = false)
    (hhead : ∀ n u, env.head n u = .resp true (some L))
    (hget : ∀ n u off, env.get n u off = .netErr em)
    (hmk : env.mkdirOk = true) :
    ∃ st', download_file env (b1 :: rest) dest0 folder none st = some (false, st') ∧
      st'.gets.map Prod.fst = st.gets.map Prod.fst ++
        [b1 ++ normalizeSlashes dest0, b1 ++ normalizeSlashes dest0,
          b1 ++ normalizeSlashes dest0] ∧
      st'.fs (folder ++ "/" ++ normalizeSlashes dest0) = none ∧
      st'.log = st.log ++
        [.failedAfterRetries (normalizeSlashes dest0) ("Network error: " ++ em)] := by
  obtain ⟨q, hq⟩ : ∃ q, parentDir (folder ++ "/" ++ normalizeSlashes dest0) = some q := by
    simp [parentDir, String.data_append]
  simp only [download_file, readStop, hstop, probeLoop, doHead, hhead, should_skip_download,
    tryMkdir, hq, hmk, addTotal, if_true, Bool.false_eq_true, if_false]
  exact mirrorLoop_allFail env b1 rest _ _ em L _ hstop (fun n off => hget n _ off)
    (by rw [hhead])

end WuwaDL

namespace WuwaDL

lemma download_file_checksumMismatch (env : Env) (b : String) (rest : List String)
    (dest0 folder m : String) (c : List Nat) (L : Nat) (st : St)
    (hstop : ∀ n, env.stop n = false)
    (hhead : ∀ n u, env.head n u = .resp true (some L))
    (hfs : st.fs (folder ++ "/" ++ normalizeSlashes dest0) = none)
    (hget : ∀ n off, env.get n (b ++ normalizeSlashes dest0) off = .okBody [c] none)
    (hc : c ≠ [])
    (hm : env.md5 c ≠ m)
    (hmk : env.mkdirOk = true) :
    ∃ st', download_file env (b :: rest) dest0 folder (some m) st = some (false, st') ∧
      st'.fs (folder ++ "/" ++ normalizeSlashes dest0) = none ∧
      st'.gets = st.gets ++ [(b ++ normalizeSlashes dest0, 0)] ∧
      st'.log = st.log ++ [.checksumFailed (normalizeSlashes dest0) m (env.md5 c)] := by
  obtain ⟨q, hq⟩ : ∃ q, parentDir (folder ++ "/" ++ normalizeSlashes dest0) = some q := by
    simp [parentDir, String.data_append]
  have hce : c.isEmpty = false := by simpa using hc
  simp only [download_file, readStop, hstop, probeLoop, doHead, hhead, should_skip_download,
    check_existing_file, hfs, tryMkdir, hq, hmk, addTotal, mirrorLoop, retryLoop,
    download_single_file, onDiskSize, doGet, hget, ensureFile, storeDownloaded, streamChunks,
    hce, appendFile, calculate_md5, removeFile, addLog, if_true, Bool.false_eq_true, if_false,
    eq_self_iff_true, Option.getD_some, Option.getD_none, List.nil_append, hm]
  refine ⟨_, rfl, ?_, ?_, ?_⟩ <;> simp

end WuwaDL

namespace WuwaDL

lemma download_file_precheck_globalSize (env : Env) (b : String) (rest : List String)
    (dest0 folder m : String) (szA : Nat) (st : St)
    (hstop : ∀ n, env.stop n = false)
    (hhead0 : env.head st.nHead (b ++ normalizeSlashes dest0) = .resp true (some szA))
    (hchk : (check_existing_file env.md5 st.fs (folder ++ "/" ++ normalizeSlashes dest0)
      (some m) (some szA)).1 = true) :
    ∃ st', download_file env (b :: rest) dest0 folder (some m) st = some (true, st') ∧
      st'.gets = st.gets ∧ st'.fs = st.fs := by
  simp only [download_file, readStop, hstop, probeLoop, doHead, hhead0, should_skip_download,
    addTotal, hchk, if_true, Bool.false_eq_true, if_false]
  exact ⟨_, rfl, rfl, rfl⟩

lemma download_file_precheck_perMirrorFallback (env : Env) (b : String)
    (dest0 folder m : String) (szB : Nat) (st : St)
    (hstop : ∀ n, env.stop n = false)
    (hhead0 : env.head st.nHead (b ++ normalizeSlashes dest0) = .resp true none)
    (hhead1 : env.head (st.nHead + 1) (b ++ normalizeSlashes dest0) = .resp true (some szB))
    (hchk : (check_existing_file env.md5 st.fs (folder ++ "/" ++ normalizeSlashes dest0)
      (some m) (some szB)).1 = true)
    (hmk : env.mkdirOk = true) :
    ∃ st', download_file env [b] dest0 folder (some m) st = some (true, st') ∧
      st'.gets = st.gets ∧ st'.fs = st.fs := by
  obtain ⟨q, hq⟩ : ∃ q, parentDir (folder ++ "/" ++ normalizeSlashes dest0) = some q := by
    simp [parentDir, String.data_append]
  simp only [download_file, readStop, hstop, probeLoop, doHead, hhead0, hhead1,
    should_skip_download, tryMkdir, hq, hmk, mirrorLoop, addTotal, hchk, if_true,
    Bool.false_eq_true, if_false]
  exact ⟨_, rfl, rfl, rfl⟩

end WuwaDL

namespace WuwaDL

lemma lookup_sound (sz : String → Nat) : ∀ (cache : List (String × Nat)) (u : String) (v : Nat),
    (∀ p ∈ cache, p.2 = sz p.1) → List.lookup u cache = some v → v = sz u := by
  intro cache
  induction cache with
  | nil => intro u v _ h; simp [List.lookup] at h
  | cons p rest ih =>
    intro u v hinv hlk
    obtain ⟨k, w⟩ := p
    by_cases h : u = k
    · simp [List.lookup, h] at hlk
      subst h
      have := hinv (u, w) (by simp)
      simp at this
      omega
    · have hbe : (u == k) = false := by simpa using h
      simp [List.lookup, hbe] at hlk
      exact ih u v (fun p hp => hinv p (by simp [hp])) hlk

lemma cts_probe_total (env : Env) (sz : String → Nat)
    (hhead : ∀ n u, env.head n u = .resp true (some (sz u)))
    (d b : String) (bases : List String) :
    ∀ (cache : List (String × Nat)) (st : St), (∀ p ∈ cache, p.2 = sz p.1) →
      ∃ cache' st', calculate_total_size_probe env d (b :: bases) cache st =
        (some (sz (b ++ "/" ++ d)), cache', st') ∧
        (∀ p ∈ cache', p.2 = sz p.1) ∧ st'.totalBytes = st.totalBytes ∧ st'.fs = st.fs := by
  intro cache st hinv
  cases hlk : List.lookup (b ++ "/" ++ d) cache with
  | some v =>
    refine ⟨cache, st, ?_, hinv, rfl, rfl⟩
    simp only [calculate_total_size_probe, hlk]
    rw [lookup_sound sz cache _ v hinv hlk]
  | none =>
    refine ⟨(b ++ "/" ++ d, sz (b ++ "/" ++ d)) :: cache, _,
      by simp only [calculate_total_size_probe, hlk, doHead, hhead]; rfl, ?_, by rfl, by rfl⟩
    intro p hp
    rcases List.mem_cons.mp hp with h | h
    · simp [h]
    · exact hinv p h

lemma cts_total (env : Env) (sz : String → Nat)
    (hhead : ∀ n u, env.head n u = .resp true (some (sz u)))
    (b : String) (bases : List String) :
    ∀ (dests : List String) (cache : List (String × Nat)) (acc : Nat) (st : St),
      (∀ p ∈ cache, p.2 = sz p.1) →
      ∃ st', calculate_total_size env (b :: bases)
          (dests.map fun d => ⟨some d, none⟩) cache acc st =
        (acc + (dests.map (fun d => sz (b ++ "/" ++ d))).sum, st') ∧
        st'.totalBytes = st.totalBytes ∧ st'.fs = st.fs := by
  intro dests
  induction dests with
  | nil => intro cache acc st _; exact ⟨st, by simp [calculate_total_size], rfl, rfl⟩
  | cons d rest ih =>
    intro cache acc st hinv
    obtain ⟨cache', st1, hp, hinv', ht1, hf1⟩ := cts_probe_total env sz hhead d b bases cache st hinv
    obtain ⟨st', hc, ht2, hf2⟩ := ih cache' (acc + sz (b ++ "/" ++ d)) st1 hinv'
    refine ⟨st', ?_, by rw [ht2, ht1], by rw [hf2, hf1]⟩
    simp only [List.map_cons, calculate_total_size, hp, hc]
    congr 1
    simp
    omega

end WuwaDL

namespace WuwaDL

lemma df_total (env : Env) (sz : String → Nat) (b : String) (bases : List String)
    (folder : String)
    (hstop : ∀ n, env.stop n = false)
    (hhead : ∀ n u, env.head n u = .resp true (some (sz u)))
    (hget : ∀ n u off, env.get n u off = .okBody [] none)
    (hmk : env.mkdirOk = true) :
    ∀ (d : String) (st : St),
      ∃ st', download_file env (b :: bases) d folder none st = some (true, st') ∧
        st'.totalBytes = st.totalBytes + sz (b ++ normalizeSlashes d) := by
  intro d st
  obtain ⟨q, hq⟩ : ∃ q, parentDir (folder ++ "/" ++ normalizeSlashes d) = some q := by
    simp [parentDir, String.data_append]
  simp only [download_file, readStop, hstop, probeLoop, doHead, hhead, should_skip_download,
    tryMkdir, hq, hmk, addTotal, mirrorLoop, retryLoop, download_single_file, onDiskSize,
    doGet, hget, ensureFile, storeDownloaded, streamChunks, if_true, Bool.false_eq_true,
    if_false]
  exact ⟨_, rfl, rfl⟩

lemma dr_total (env : Env) (sz : String → Nat) (b : String) (bases : List String)
    (folder : String)
    (hstop : ∀ n, env.stop n = false)
    (hhead : ∀ n u, env.head n u = .resp true (some (sz u)))
    (hget : ∀ n u off, env.get n u off = .okBody [] none)
    (hmk : env.mkdirOk = true) :
    ∀ (dests : List String) (st : St),
      ∃ st', download_resources env (b :: bases) folder
          (dests.map fun d => ⟨some d, none⟩) st = some st' ∧
        st'.totalBytes = st.totalBytes +
          (dests.map (fun d => sz (b ++ normalizeSlashes d))).sum := by
  intro dests
  induction dests with
  | nil => intro st; exact ⟨st, by simp [download_resources], by simp⟩
  | cons d rest ih =>
    intro st
    obtain ⟨st1, hdf, ht1⟩ := df_total env sz b bases folder hstop hhead hget hmk d
      { st with nStop := st.nStop + 1 }
    obtain ⟨st', hdr, ht2⟩ := ih { st1 with success := st1.success + 1 }
    refine ⟨st', ?_, ?_⟩
    · simp only [List.map_cons, download_resources, readStop, hstop, hdf, if_true]
      simpa using hdr
    · rw [ht2]
      simp only at ht1
      simp [ht1]
      omega

end WuwaDL

namespace WuwaDL

end WuwaDL

namespace WuwaDL

lemma cts_probe_heads (env : Env) (d : String) :
    ∀ (bases : List String) (cache : List (String × Nat)) (st : St),
      ∃ hs, (calculate_total_size_probe env d bases cache st).2.2.heads = st.heads ++ hs ∧
        ∀ v ∈ hs, ∃ b ∈ bases, v = b ++ "/" ++ d := by
  intro bases cache st
  induction bases, cache, st using calculate_total_size_probe.induct env d with
  | case1 cache st => exact ⟨[], by simp [calculate_total_size_probe], by simp⟩
  | case2 b bases cache st url s hlk =>
    refine ⟨[], ?_, by simp⟩
    simp [calculate_total_size_probe, hlk]
  | case3 b bases cache st url hlk ok n st1 hh =>
    simp only [doHead, Prod.mk.injEq] at hh
    refine ⟨[b ++ "/" ++ d], ?_, fun v hv => ⟨b, by simp, by simpa using hv⟩⟩
    simp only [calculate_total_size_probe, hlk, doHead, hh.1]
  | case4 b bases cache st url hlk out st1 hne hh ih =>
    simp only [doHead, Prod.mk.injEq] at hh
    obtain ⟨hs, ih1, ih2⟩ := ih
    rw [← hh.2] at ih1
    have hred : calculate_total_size_probe env d (b :: bases) cache st =
        calculate_total_size_probe env d bases cache
          ({ st with nHead := st.nHead + 1, heads := st.heads ++ [b ++ "/" ++ d] }) := by
      cases out with
      | err => simp [calculate_total_size_probe, hlk, doHead, hh.1]
      | resp ok len =>
        cases len with
        | none => simp [calculate_total_size_probe, hlk, doHead, hh.1]
        | some n => exact (hne ok n rfl).elim
    refine ⟨(b ++ "/" ++ d) :: hs, ?_, ?_⟩
    · rw [hred]
      simpa using ih1
    · intro v hv
      rcases List.mem_cons.mp hv with h | h
      · exact ⟨b, by simp, h⟩
      · obtain ⟨b', hb', he⟩ := ih2 v h
        exact ⟨b', by simp [hb'], he⟩

lemma cts_heads (env : Env) (cfg : List String) :
    ∀ (resources : List Resource) (cache : List (String × Nat)) (acc : Nat) (st : St),
      ∃ hs, (calculate_total_size env cfg resources cache acc st).2.heads = st.heads ++ hs ∧
        ∀ v ∈ hs, ∃ b ∈ cfg, ∃ r ∈ resources, ∃ d, r.dest = some d ∧ v = b ++ "/" ++ d := by
  intro resources
  induction resources with
  | nil => intro cache acc st; exact ⟨[], by simp [calculate_total_size], by simp⟩
  | cons r rest ih =>
    intro cache acc st
    cases hd : r.dest with
    | none =>
      obtain ⟨hs, ih1, ih2⟩ := ih cache acc st
      refine ⟨hs, ?_, ?_⟩
      · simpa [calculate_total_size, hd] using ih1
      · intro v hv
        obtain ⟨b, hb, r', hr', d, hd', he⟩ := ih2 v hv
        exact ⟨b, hb, r', by simp [hr'], d, hd', he⟩
    | some d =>
      obtain ⟨hs0, hp, hpm⟩ := cts_probe_heads env d cfg cache st
      cases hpr : calculate_total_size_probe env d cfg cache st with
      | mk osz rest2 =>
        obtain ⟨cache2, st2⟩ := rest2
        rw [hpr] at hp
        simp only at hp
        have step : ∀ (acc2 : Nat),
            calculate_total_size env cfg (r :: rest) cache acc st =
              calculate_total_size env cfg rest cache2 acc2 st2 →
            ∃ hs, (calculate_total_size env cfg (r :: rest) cache acc st).2.heads =
              st.heads ++ hs ∧
              ∀ v ∈ hs, ∃ b ∈ cfg, ∃ r' ∈ r :: rest, ∃ d', r'.dest = some d' ∧
                v = b ++ "/" ++ d' := by
          intro acc2 heq
          obtain ⟨hs1, ih1, ih2⟩ := ih cache2 acc2 st2
          refine ⟨hs0 ++ hs1, ?_, ?_⟩
          · rw [heq, ih1, hp]
            simp
          · intro v hv
            rcases List.mem_append.mp hv with h | h
            · obtain ⟨b, hb, he⟩ := hpm v h
              exact ⟨b, hb, r, by simp, d, hd, he⟩
            · obtain ⟨b, hb, r', hr', d', hd', he⟩ := ih2 v h
              exact ⟨b, hb, r', by simp [hr'], d', hd', he⟩
        cases osz with
        | some n => exact step (acc + n) (by simp [calculate_total_size, hd, hpr])
        | none => exact step acc (by simp [calculate_total_size, hd, hpr])

end WuwaDL

namespace WuwaDL

/-- C3: `check_existing_file` returns false when the path does not exist;
with both expectations present it returns true iff the actual size equals the
expected size and the actual hash equals the expected hash; a size mismatch
returns false with zero hash computations (the cheap short-circuit); with no
expectations it returns true for any existing file. -/
theorem check_existing_file_spec (md5fn : List Nat → String)
    (fs : String → Option (List Nat)) (path : String) :
    (fs path = none → ∀ m s, check_existing_file md5fn fs path m s = (false, 0)) ∧
    (∀ content m s, fs path = some content →
      ((check_existing_file md5fn fs path (some m) (some s)).1 = true ↔
        content.length = s ∧ md5fn content = m)) ∧
    (∀ content m s, fs path = some content → content.length ≠ s →
      check_existing_file md5fn fs path (some m) (some s) = (false, 0)) ∧
    (∀ content, fs path = some content →
      check_existing_file md5fn fs path none none = (true, 0)) := by
  refine ⟨?_, ?_, ?_, ?_⟩
  · intro h m s
    cases m <;> cases s <;> simp [check_existing_file, h]
  · intro content m s h
    simp only [check_existing_file, h]
    by_cases hs : content.length = s <;> by_cases hm : md5fn content = m <;>
      simp [hs, hm]
  · intro content m s h hne
    simp [check_existing_file, h, hne]
  · intro content h
    simp [check_existing_file, h]

/-- C3 witness: the four clauses evaluated at a concrete disk holding the
two-byte file "a" with hash "h". -/
theorem check_existing_file_spec_witness :
    check_existing_file (fun c => if c = [1, 2] then "h" else "x")
      (fun p => if p = "a" then some [1, 2] else none) "b" (some "h") (some 2) = (false, 0) ∧
    (check_existing_file (fun c => if c = [1, 2] then "h" else "x")
      (fun p => if p = "a" then some [1, 2] else none) "a" (some "h") (some 2)).1 = true ∧
    check_existing_file (fun c => if c = [1, 2] then "h" else "x")
      (fun p => if p = "a" then some [1, 2] else none) "a" (some "h") (some 3) = (false, 0) ∧
    check_existing_file (fun c => if c = [1, 2] then "h" else "x")
      (fun p => if p = "a" then some [1, 2] else none) "a" none none = (true, 0) := by
  refine ⟨?_, ?_, ?_, ?_⟩
  · exact (check_existing_file_spec _ _ "b").1 rfl (some "h") (some 2)
  · exact ((check_existing_file_spec _ _ "a").2.1 [1, 2] "h" 2 rfl).mpr ⟨rfl, rfl⟩
  · exact (check_existing_file_spec _ _ "a").2.2.1 [1, 2] "h" 3 rfl (by decide)
  · exact (check_existing_file_spec _ _ "a").2.2.2 [1, 2] rfl

/-- C6: when the cancellation flag reads true at entry, `download_file`
returns false immediately with no network request (the state changes only by
the one flag read), and the driver loop `download_resources` starts no
subsequent file: its traces and success counter are unchanged. -/
theorem cancellation_short_circuits (env : Env) (cfg : List String) (dest folder : String)
    (md5 : Option String) (st : St) (resources : List Resource)
    (h : env.stop st.nStop = true) :
    download_file env cfg dest folder md5 st = some (false, { st with nStop := st.nStop + 1 }) ∧
    ∃ st', download_resources env cfg folder resources st = some st' ∧
      st'.heads = st.heads ∧ st'.gets = st.gets ∧ st'.success = st.success ∧
      st'.dlTrace = st.dlTrace := by
  constructor
  · simp [download_file, readStop, h]
  · cases resources with
    | nil => exact ⟨st, rfl, rfl, rfl, rfl, rfl⟩
    | cons r rest =>
      refine ⟨{ st with nStop := st.nStop + 1 }, ?_, rfl, rfl, rfl, rfl⟩
      simp [download_resources, readStop, h]

/-- C6 witness: the cancelled environment on a one-file batch. -/
theorem cancellation_short_circuits_witness :
    download_file envStop ["B"] "f" "d" none st0 =
      some (false, { st0 with nStop := st0.nStop + 1 }) ∧
    ∃ st', download_resources envStop ["B"] "d" [⟨some "f", none⟩] st0 = some st' ∧
      st'.heads = st0.heads ∧ st'.gets = st0.gets ∧ st'.success = st0.success ∧
      st'.dlTrace = st0.dlTrace :=
  cancellation_short_circuits envStop ["B"] "f" "d" none st0 [⟨some "f", none⟩] rfl

/-- C10: with an empty mirror list and cancellation not requested,
`download_file` issues no HEAD and no GET, writes no file byte, discovers no
size (`total_bytes` unchanged, so the pre-check short-circuit never fires),
and returns false after logging the all-CDNs-failed record. -/
theorem empty_mirror_list_fails (env : Env) (dest folder : String) (md5 : Option String)
    (st : St) (hstop : env.stop st.nStop = false) (hmk : env.mkdirOk = true) :
    ∃ st', download_file env [] dest folder md5 st = some (false, st') ∧
      st'.heads = st.heads ∧ st'.gets = st.gets ∧ st'.fs = st.fs ∧
      st'.totalBytes = st.totalBytes ∧ st'.downloadedBytes = st.downloadedBytes ∧
      st'.dlTrace = st.dlTrace ∧
      st'.log = st.log ++ [.allCdnsFailed (normalizeSlashes dest)] := by
  simp only [download_file, readStop, hstop, probeLoop]
  cases md5 <;>
    simp only [should_skip_download] <;>
    cases h : parentDir (folder ++ "/" ++ normalizeSlashes dest) <;>
      simp [tryMkdir, h, hmk, mirrorLoop, addLog]

/-- C10 witness: the empty-mirror call on a fresh state. -/
theorem empty_mirror_list_fails_witness :
    ∃ st', download_file envC7 [] "f" "d" (some "x") st0 = some (false, st') ∧
      st'.heads = st0.heads ∧ st'.gets = st0.gets ∧ st'.fs = st0.fs ∧
      st'.totalBytes = st0.totalBytes ∧ st'.downloadedBytes = st0.downloadedBytes ∧
      st'.dlTrace = st0.dlTrace ∧
      st'.log = st0.log ++ [.allCdnsFailed (normalizeSlashes "f")] :=
  empty_mirror_list_fails envC7 "f" "d" (some "x") st0 rfl rfl

/-- C8 (amended): `calculate_md5` panics (aborting the process) when the file
cannot be opened; it does not return an `IOError` value — the function's
return type has no error channel.  When the file is readable it returns the
streaming hash of its full contents. -/
theorem calculate_md5_behaviour (md5fn : List Nat → String)
    (fs : String → Option (List Nat)) (path : String) :
    (fs path = none → calculate_md5 md5fn fs path = .panicked) ∧
    (∀ c, fs path = some c → calculate_md5 md5fn fs path = .hash (md5fn c)) := by
  constructor
  · intro h; simp [calculate_md5, h]
  · intro c h; simp [calculate_md5, h]

/-- C8 witness: the two behaviours at a missing and at a present file. -/
theorem calculate_md5_behaviour_witness :
    calculate_md5 (fun _ => "h") fs0 "a" = .panicked ∧
    calculate_md5 (fun _ => "h") (fun p => if p = "a" then some [1] else none) "a" =
      .hash "h" := by
  constructor
  · exact (calculate_md5_behaviour (fun _ => "h") fs0 "a").1 rfl
  · exact (calculate_md5_behaviour (fun _ => "h")
      (fun p => if p = "a" then some [1] else none) "a").2 [1] rfl

/-- C8 counterexample: on a file that cannot be opened, the source
`calculate_md5` aborts via `.unwrap()` (modelled `panicked`), while the
spec's model of `computeHash` returns a recoverable `IOError` value — the
failure behaviours differ. -/
theorem calculate_md5_panics_counterexample :
    calculate_md5 (fun _ => "h") fs0 "a" = .panicked ∧
    computeHash_specModel (fun _ => "h") fs0 "a" = .error "IOError" :=
  ⟨rfl, rfl⟩

end WuwaDL

namespace WuwaDL

/-- C1 counterexample: mirror `m1/` passes its HEAD probe but fails every
GET; after exactly `MAX_RETRIES` = 3 attempts against `m1/` the controller
returns false for the whole file and logs the after-retries failure — it
never issues a request to mirror `m2/`, although `m2/`'s HEAD and GET would
both succeed.  This refutes "moves to the next mirror when the budget is
exhausted". -/
theorem retry_exhaustion_no_failover_counterexample :
    (dfC1.map fun r => (r.1, r.2.gets, r.2.log)) =
      some (false, [("m1/f", 0), ("m1/f", 0), ("m1/f", 0)],
        [.failedAfterRetries "f" "Network error: boom"]) ∧
    envC1.head 0 "m2/f" = .resp true (some 4) ∧
    envC1.get 0 "m2/f" 0 = .okBody [] none :=
  ⟨rfl, rfl, rfl⟩

/-- C1 (amended): per file, all transfer attempts go to a single mirror url
and number at most `MAX_RETRIES`; after each failed attempt (without
cancellation) the partial file is deleted and the same mirror retried; but
when the budget is exhausted the controller fails the whole file (returns
false and logs the after-retries record) instead of moving to the next
mirror — the mirror loop advances only past mirrors whose HEAD probe fails. -/
theorem download_file_retry_budget :
    (∀ (env : Env) (cfg : List String) (dest0 folder : String) (md5 : Option String)
      (st : St) (res : Bool × St), download_file env cfg dest0 folder md5 st = some res →
      ∃ u offs, res.2.gets = st.gets ++ offs.map (fun o => (u, o)) ∧
        offs.length ≤ MAX_RETRIES ∧
        (offs ≠ [] → ∃ b ∈ cfg, u = b ++ normalizeSlashes dest0)) ∧
    (∀ (env : Env) (b1 : String) (rest : List String) (dest0 folder em : String)
      (L : Nat) (st : St),
      (∀ n, env.stop n = false) → (∀ n u, env.head n u = .resp true (some L)) →
      (∀ n u off, env.get n u off = .netErr em) → env.mkdirOk = true →
      ∃ st', download_file env (b1 :: rest) dest0 folder none st = some (false, st') ∧
        st'.gets.map Prod.fst = st.gets.map Prod.fst ++
          [b1 ++ normalizeSlashes dest0, b1 ++ normalizeSlashes dest0,
            b1 ++ normalizeSlashes dest0] ∧
        st'.fs (folder ++ "/" ++ normalizeSlashes dest0) = none ∧
        st'.log = st.log ++
          [.failedAfterRetries (normalizeSlashes dest0) ("Network error: " ++ em)]) := by
  constructor
  · intro env cfg dest0 folder md5 st res h
    obtain ⟨u, offs, hs, hg, hn, hne, _, _⟩ :=
      download_file_traces env cfg dest0 folder md5 st res h
    exact ⟨u, offs, hg, hn, hne⟩
  · intro env b1 rest dest0 folder em L st hstop hhead hget hmk
    exact download_file_allFail env b1 rest dest0 folder em L st hstop hhead hget hmk

/-- C1 witness: both parts at concrete environments — the C1 scenario run,
and an all-mirrors-dead-GET run with two mirrors configured. -/
theorem download_file_retry_budget_witness :
    (∃ u offs, resC1.2.gets = st0.gets ++ offs.map (fun o => (u, o)) ∧
      offs.length ≤ MAX_RETRIES ∧
      (offs ≠ [] → ∃ b ∈ ["m1/", "m2/"], u = b ++ normalizeSlashes "f")) ∧
    (∃ st', download_file envW1 ["m1/", "m2/"] "f" "d" none st0 = some (false, st') ∧
      st'.gets.map Prod.fst = st0.gets.map Prod.fst ++
        ["m1/" ++ normalizeSlashes "f", "m1/" ++ normalizeSlashes "f",
          "m1/" ++ normalizeSlashes "f"] ∧
      st'.fs ("d" ++ "/" ++ normalizeSlashes "f") = none ∧
      st'.log = st0.log ++
        [.failedAfterRetries (normalizeSlashes "f") ("Network error: " ++ "E")]) := by
  constructor
  · exact download_file_retry_budget.1 envC1 ["m1/", "m2/"] "f" "d" none st0 resC1 rfl
  · exact download_file_retry_budget.2 envW1 "m1/" ["m2/"] "f" "d" "E" 4 st0
      (fun _ => rfl) (fun _ _ => rfl) (fun _ _ _ => rfl) rfl

/-- C2 counterexample: mirror `m1/`'s transfer succeeds but the hash
mismatches; the controller deletes the file, logs the checksum failure and
returns false for the whole file — no request is ever made to mirror `m2/`,
although `m2/` would have served content with the expected hash.  This
refutes "treats this as a failure of the current mirror only, advancing to
the next mirror". -/
theorem checksum_mismatch_no_failover_counterexample :
    ((download_file envC2 ["m1/", "m2/"] "f" "d" (some "good") st0).map
      fun r => (r.1, r.2.gets, r.2.fs "d/f", r.2.log)) =
      some (false, [("m1/f", 0)], none, [.checksumFailed "f" "good" "bad"]) ∧
    envC2.md5 [8] = "good" ∧
    envC2.get 0 "m2/f" 0 = .okBody [[8]] none :=
  ⟨rfl, rfl, rfl⟩

/-- C2 (amended): when a transfer attempt succeeds and the recomputed hash
differs from the expected hash, the controller deletes the file, logs the
checksum failure and returns false for the whole file immediately — it does
not advance to the next mirror, and exactly one transfer attempt was made. -/
theorem checksum_mismatch_fails_whole_file (env : Env) (b : String) (rest : List String)
    (dest0 folder m : String) (c : List Nat) (L : Nat) (st : St)
    (hstop : ∀ n, env.stop n = false)
    (hhead : ∀ n u, env.head n u = .resp true (some L))
    (hfs : st.fs (folder ++ "/" ++ normalizeSlashes dest0) = none)
    (hget : ∀ n off, env.get n (b ++ normalizeSlashes dest0) off = .okBody [c] none)
    (hc : c ≠ [])
    (hm : env.md5 c ≠ m)
    (hmk : env.mkdirOk = true) :
    ∃ st', download_file env (b :: rest) dest0 folder (some m) st = some (false, st') ∧
      st'.fs (folder ++ "/" ++ normalizeSlashes dest0) = none ∧
      st'.gets = st.gets ++ [(b ++ normalizeSlashes dest0, 0)] ∧
      st'.log = st.log ++ [.checksumFailed (normalizeSlashes dest0) m (env.md5 c)] :=
  download_file_checksumMismatch env b rest dest0 folder m c L st hstop hhead hfs hget hc hm hmk

/-- C2 witness: the C2 scenario environment with two mirrors. -/
theorem checksum_mismatch_fails_whole_file_witness :
    ∃ st', download_file envC2 ["m1/", "m2/"] "f" "d" (some "good") st0 = some (false, st') ∧
      st'.fs ("d" ++ "/" ++ normalizeSlashes "f") = none ∧
      st'.gets = st0.gets ++ [("m1/" ++ normalizeSlashes "f", 0)] ∧
      st'.log = st0.log ++ [.checksumFailed (normalizeSlashes "f") "good" (envC2.md5 [7])] :=
  checksum_mismatch_fails_whole_file envC2 "m1/" ["m2/"] "f" "d" "good" [7] 1 st0
    (fun _ => rfl) (fun _ _ => rfl) rfl (fun _ _ => rfl) (by decide) (by decide) rfl

/-- C4 counterexample: a run in which the stored `downloaded_bytes` values
are 0, then 5, then 0 again — the first attempt streams 5 bytes and dies on
a read error, the partial file is deleted, and the retry's opening store
resets the counter to 0.  The store trace is not monotone, refuting "every
progress update leaves downloadedBytes greater than or equal to its previous
value". -/
theorem downloadedBytes_decreases_counterexample :
    ((download_file envC4 ["m/"] "f" "d" none st0).map fun r => (r.1, r.2.dlTrace)) =
      some (true, [0, 5, 0]) ∧
    ¬ List.Chain' (fun a b => a ≤ b) [0, 5, 0] :=
  ⟨rfl, by simp [List.chain'_cons]⟩

/-- C5 counterexample: the global probe reports size 3, the mirror's
re-probe reports size 5, and the local file matches size 5 with the right
hash.  Under the claim the pre-check would use the per-mirror size 5 and
succeed with no transfer; the code uses the global size 3, the pre-check
fails, and a GET (with resume offset 5) is issued. -/
theorem per_mirror_size_shadowed_counterexample :
    ((download_file envC5 ["m/"] "f" "d" (some "h") (initSt fsC5)).map
      fun r => (r.1, r.2.gets)) = some (true, [("m/f", 5)]) ∧
    (check_existing_file envC5.md5 fsC5 "d/f" (some "h") (some 5)).1 = true ∧
    (check_existing_file envC5.md5 fsC5 "d/f" (some "h") (some 3)).1 = false ∧
    envC5.head 1 "m/f" = .resp true (some 5) :=
  ⟨rfl, rfl, rfl, rfl⟩

/-- C5 (amended): the expected size used by the mirror loop is
`file_size.or_else(per-mirror length)` — the globally probed size takes
precedence, and the per-mirror re-probed size is used only when the global
probe found none.  When the global size is known and the local file matches
it, the pre-check fires with no transfer; when the global probe found no
size and the per-mirror probe reports one that the local file matches, the
in-loop pre-check fires with no transfer. -/
theorem expected_size_prefers_global_probe :
    (∀ (env : Env) (b : String) (rest : List String) (dest0 folder m : String)
      (szA : Nat) (st : St), (∀ n, env.stop n = false) →
      env.head st.nHead (b ++ normalizeSlashes dest0) = .resp true (some szA) →
      (check_existing_file env.md5 st.fs (folder ++ "/" ++ normalizeSlashes dest0)
        (some m) (some szA)).1 = true →
      ∃ st', download_file env (b :: rest) dest0 folder (some m) st = some (true, st') ∧
        st'.gets = st.gets ∧ st'.fs = st.fs) ∧
    (∀ (env : Env) (b : String) (dest0 folder m : String) (szB : Nat) (st : St),
      (∀ n, env.stop n = false) →
      env.head st.nHead (b ++ normalizeSlashes dest0) = .resp true none →
      env.head (st.nHead + 1) (b ++ normalizeSlashes dest0) = .resp true (some szB) →
      (check_existing_file env.md5 st.fs (folder ++ "/" ++ normalizeSlashes dest0)
        (some m) (some szB)).1 = true →
      env.mkdirOk = true →
      ∃ st', download_file env [b] dest0 folder (some m) st = some (true, st') ∧
        st'.gets = st.gets ∧ st'.fs = st.fs) :=
  ⟨fun env b rest dest0 folder m szA st h1 h2 h3 =>
      download_file_precheck_globalSize env b rest dest0 folder m szA st h1 h2 h3,
    fun env b dest0 folder m szB st h1 h2 h3 h4 h5 =>
      download_file_precheck_perMirrorFallback env b dest0 folder m szB st h1 h2 h3 h4 h5⟩

/-- C5 witness: both pre-check paths at concrete environments over the disk
that already holds the correct file. -/
theorem expected_size_prefers_global_probe_witness :
    (∃ st', download_file envW5 ["m/"] "f" "d" (some "h") (initSt fsC5) =
        some (true, st') ∧
      st'.gets = (initSt fsC5).gets ∧ st'.fs = (initSt fsC5).fs) ∧
    (∃ st', download_file envW5b ["m/"] "f" "d" (some "h") (initSt fsC5) =
        some (true, st') ∧
      st'.gets = (initSt fsC5).gets ∧ st'.fs = (initSt fsC5).fs) := by
  constructor
  · exact expected_size_prefers_global_probe.1 envW5 "m/" [] "f" "d" "h" 5 (initSt fsC5)
      (fun _ => rfl) rfl (by decide)
  · exact expected_size_prefers_global_probe.2 envW5b "m/" "f" "d" "h" 5 (initSt fsC5)
      (fun _ => rfl) rfl rfl (by decide) rfl

/-- C7 counterexample: the batch size-estimation pass builds its url as
base, a slash, then the raw destination — for base "B" and destination
"a\x5cb" it issues a HEAD to "B/a\x5cb", which differs from the plain
concatenation of the base with the normalized path, "Ba/b".  This refutes
"this holds for both the batch size-estimation pass and the download path". -/
theorem estimation_pass_url_counterexample :
    (calculate_total_size envC7 ["B"] [⟨some "a\\b", none⟩] [] 0 st0).2.heads =
      ["B/a\\b"] ∧
    "B/a\\b" ≠ "B" ++ normalizeSlashes "a\\b" ∧
    "B" ++ normalizeSlashes "a\\b" = "Ba/b" :=
  ⟨rfl, by decide, rfl⟩

/-- C7 (amended): the download path builds every candidate url as the plain
concatenation of a configured base with the backslash-normalized destination
(no separator inserted) — every HEAD and GET it issues has that shape — but
the batch size-estimation pass instead builds base ++ "/" ++ dest with a
slash inserted and no backslash normalization. -/
theorem url_construction_amended :
    (∀ (env : Env) (cfg : List String) (dest0 folder : String) (md5 : Option String)
      (st : St) (res : Bool × St), download_file env cfg dest0 folder md5 st = some res →
      (∃ hs, res.2.heads = st.heads ++ hs ∧
        ∀ v ∈ hs, ∃ b ∈ cfg, v = b ++ normalizeSlashes dest0) ∧
      (∃ u offs, res.2.gets = st.gets ++ offs.map (fun o => (u, o)) ∧
        (offs ≠ [] → ∃ b ∈ cfg, u = b ++ normalizeSlashes dest0))) ∧
    (∀ (env : Env) (cfg : List String) (resources : List Resource)
      (cache : List (String × Nat)) (acc : Nat) (st : St), ∃ hs,
      (calculate_total_size env cfg resources cache acc st).2.heads = st.heads ++ hs ∧
      ∀ v ∈ hs, ∃ b ∈ cfg, ∃ r ∈ resources, ∃ d, r.dest = some d ∧ v = b ++ "/" ++ d) := by
  constructor
  · intro env cfg dest0 folder md5 st res h
    obtain ⟨u, offs, hs, hg, _, hne, hh, hhm⟩ :=
      download_file_traces env cfg dest0 folder md5 st res h
    exact ⟨⟨hs, hh, hhm⟩, ⟨u, offs, hg, hne⟩⟩
  · intro env cfg resources cache acc st
    exact cts_heads env cfg resources cache acc st

/-- C7 witness: both url shapes at the dead-network scenario with a
backslash in the destination. -/
theorem url_construction_amended_witness :
    ((∃ hs, resC7.2.heads = st0.heads ++ hs ∧
      ∀ v ∈ hs, ∃ b ∈ ["B"], v = b ++ normalizeSlashes "a\\b") ∧
     (∃ u offs, resC7.2.gets = st0.gets ++ offs.map (fun o => (u, o)) ∧
       (offs ≠ [] → ∃ b ∈ ["B"], u = b ++ normalizeSlashes "a\\b"))) ∧
    (∃ hs, (calculate_total_size envC7 ["B"] [⟨some "a\\b", none⟩] [] 0 st0).2.heads =
        st0.heads ++ hs ∧
      ∀ v ∈ hs, ∃ b ∈ ["B"], ∃ r ∈ [(⟨some "a\\b", none⟩ : Resource)], ∃ d,
        r.dest = some d ∧ v = b ++ "/" ++ d) := by
  constructor
  · exact url_construction_amended.1 envC7 ["B"] "a\\b" "d" none st0 resC7 rfl
  · exact url_construction_amended.2 envC7 ["B"] [⟨some "a\\b", none⟩] [] 0 st0

end WuwaDL

namespace WuwaDL

/-- C9: a file whose content length is reported both during the batch
size-estimation pass (whose sum initializes `total_bytes` via
`track_progress`) and again by the probe loop at the start of
`download_file` (which fetch-adds it) is counted twice: over a batch where
every probe answers, the final `total_bytes` is the estimation-pass sum plus
the download-pass sum, and when the two reported sizes agree per file it
equals twice the true batch size. -/
theorem totalBytes_double_count (env : Env) (sz : String → Nat) (b folder : String)
    (bases : List String) (dests : List String) (fs0 : String → Option (List Nat))
    (hstop : ∀ n, env.stop n = false)
    (hhead : ∀ n u, env.head n u = .resp true (some (sz u)))
    (hget : ∀ n u off, env.get n u off = .okBody [] none)
    (hmk : env.mkdirOk = true) :
    ∃ stF, runBatch env (b :: bases) folder (dests.map fun d => ⟨some d, none⟩) fs0 =
        some stF ∧
      stF.totalBytes = (dests.map (fun d => sz (b ++ "/" ++ d))).sum +
        (dests.map (fun d => sz (b ++ normalizeSlashes d))).sum ∧
      ((∀ d ∈ dests, sz (b ++ "/" ++ d) = sz (b ++ normalizeSlashes d)) →
        stF.totalBytes = 2 * (dests.map (fun d => sz (b ++ normalizeSlashes d))).sum) := by
  obtain ⟨st1, hc, ht1, _⟩ := cts_total env sz hhead b bases dests [] 0 (initSt fs0) (by simp)
  obtain ⟨stF, hdr, ht2⟩ := dr_total env sz b bases folder hstop hhead hget hmk dests
    (track_progress (0 + (dests.map (fun d => sz (b ++ "/" ++ d))).sum) st1)
  have htotal : stF.totalBytes = (dests.map (fun d => sz (b ++ "/" ++ d))).sum +
      (dests.map (fun d => sz (b ++ normalizeSlashes d))).sum := by
    rw [ht2]
    simp [track_progress]
  refine ⟨stF, ?_, htotal, ?_⟩
  · simp only [runBatch, hc, hdr]
  · intro hagree
    rw [htotal, List.map_congr_left hagree, Nat.two_mul]

/-- C9 witness: a one-file batch where every probe reports 5 bytes ends
with `total_bytes` = 10. -/
theorem totalBytes_double_count_witness :
    ∃ stF, runBatch envC9 ["B"] "d" [⟨some "a", none⟩] fs0 = some stF ∧
      stF.totalBytes = 10 := by
  obtain ⟨stF, h1, h2, h3⟩ := totalBytes_double_count envC9 (fun _ => 5) "B" "d" [] ["a"] fs0
    (fun _ => rfl) (fun _ _ => rfl) (fun _ _ _ => rfl) rfl
  refine ⟨stF, h1, ?_⟩
  rw [h3 (fun d _ => rfl)]
  rfl

end WuwaDL

namespace WuwaDL

lemma streamChunks_dlTrace (env : Env) (path : String) (rerr : Option String) :
    ∀ (chunks : List (List Nat)) (d : Nat) (st : St), ∃ tr,
      (streamChunks env path rerr chunks d st).2.dlTrace = st.dlTrace ++ tr ∧
        List.Chain (· ≤ ·) d tr := by
  intro chunks
  induction chunks with
  | nil =>
    intro d st
    refine ⟨[], ?_, .nil⟩
    cases h : env.stop st.nStop <;> cases rerr <;>
      simp [streamChunks, readStop, h]
  | cons c rest ih =>
    intro d st
    cases h : env.stop st.nStop with
    | true => exact ⟨[], by simp [streamChunks, readStop, h], .nil⟩
    | false =>
      by_cases hc : c.isEmpty
      · exact ⟨[], by simp [streamChunks, readStop, h, hc], .nil⟩
      · obtain ⟨tr', htr', hch⟩ := ih (d + c.length)
          (storeDownloaded (appendFile { st with nStop := st.nStop + 1 } path c) (d + c.length))
        refine ⟨(d + c.length) :: tr', ?_, .cons (Nat.le_add_right d c.length) hch⟩
        simp only [streamChunks, readStop, h, Bool.false_eq_true, if_false, hc]
        simp only [storeDownloaded, appendFile] at htr' ⊢
        simp [htr']

/-- C4 (amended): the transfer loop stores absolute positions into
`downloaded_bytes`: within one attempt the appended store trace is either
empty (the attempt failed before opening the file) or the attempt's resume
offset followed by a non-decreasing chain; every attempt begins by resetting
the counter to its own resume offset, so the counter is not monotone across
attempts, mirrors, or files (see the counterexample). -/
theorem download_single_file_progress_stores (env : Env) (url path : String) (st : St) :
    ∃ tr, (download_single_file env url path st).2.dlTrace = st.dlTrace ++ tr ∧
      (tr = [] ∨ ∃ tr', tr = onDiskSize st.fs path :: tr' ∧
        List.Chain (· ≤ ·) (onDiskSize st.fs path) tr') := by
  cases hg : env.get st.nGet url (onDiskSize st.fs path) with
  | netErr e =>
    refine ⟨[], ?_, .inl rfl⟩
    simp [download_single_file, doGet, hg]
  | rangeNotSat =>
    refine ⟨[], ?_, .inl rfl⟩
    simp [download_single_file, doGet, hg]
  | httpErr code =>
    refine ⟨[], ?_, .inl rfl⟩
    simp [download_single_file, doGet, hg]
  | okBody chunks rerr =>
    obtain ⟨tr', htr', hch⟩ := streamChunks_dlTrace env path rerr chunks (onDiskSize st.fs path)
      (storeDownloaded (ensureFile
        { st with nGet := st.nGet + 1, gets := st.gets ++ [(url, onDiskSize st.fs path)] } path)
        (onDiskSize st.fs path))
    refine ⟨onDiskSize st.fs path :: tr', ?_, .inr ⟨tr', rfl, hch⟩⟩
    simp only [download_single_file, doGet, hg]
    simp only [storeDownloaded, ensureFile] at htr' ⊢
    simp [htr']

end WuwaDL
